import Mathlib

/-!
# Verification of the cashflow-scheduler core

A shallow embedding, in Lean 4, of the core of the cashflow-scheduler
repository: the money module and plan model (src/cashflow/core/model.py),
the ledger builder (src/cashflow/core/ledger.py), the validator
(src/cashflow/core/validate.py), the DP solver (src/cashflow/engines/dp.py),
the model-construction part of the CP-SAT engine
(src/cashflow/engines/cpsat.py), and the resume operation
(src/api/set_eod.py, src/cashflow/cli.py).

All monetary quantities are integer cents (Lean Int, matching Python's
unbounded int).  Fallible Python code (KeyError / IndexError / raise) is
embedded with Option / Except.  Days are 1-indexed with horizon 30, as in
the source.
-/

namespace Cashflow

instance {ε α : Type} [DecidableEq ε] [DecidableEq α] : DecidableEq (Except ε α) :=
  fun a b =>
    match a, b with
    | .ok x, .ok y =>
      if h : x = y then isTrue (by rw [h]) else isFalse (by intro hc; cases hc; exact h rfl)
    | .error x, .error y =>
      if h : x = y then isTrue (by rw [h]) else isFalse (by intro hc; cases hc; exact h rfl)
    | .ok _, .error _ => isFalse (by intro hc; cases hc)
    | .error _, .ok _ => isFalse (by intro hc; cases hc)

/-- Action payout table from src/cashflow/core/model.py:
SHIFT_NET_CENTS maps "O" to 0 and "Spark" to 10000 cents.
Represented as an association list; a failed lookup models Python KeyError. -/
def SHIFT_NET_CENTS : List (String × Int) := [("O", 0), ("Spark", 10000)]

/-- Dictionary lookup in SHIFT_NET_CENTS; none models a Python KeyError. -/
def lookupNet (a : String) : Option Int :=
  SHIFT_NET_CENTS.lookup a

/-- MAX_AMOUNT_CENTS from model.py: 10^9 cents. -/
def MAX_AMOUNT_CENTS : Int := 1000000000

/-- Bill dataclass (model.py). The day field is a Python int, hence Int. -/
structure Bill where
  day : Int
  name : String
  amount_cents : Int
deriving DecidableEq, Repr

/-- Deposit dataclass (model.py). -/
structure Deposit where
  day : Int
  amount_cents : Int
deriving DecidableEq, Repr

/-- Adjustment dataclass (model.py); amount may be negative. -/
structure Adjustment where
  day : Int
  amount_cents : Int
  note : String
deriving DecidableEq, Repr

/-- Plan dataclass (model.py).  actions holds optional per-day locks. -/
structure Plan where
  start_balance_cents : Int
  target_end_cents : Int
  band_cents : Int
  rent_guard_cents : Int
  deposits : List Deposit
  bills : List Bill
  actions : List (Option String)
  manual_adjustments : List Adjustment
  locks : List (Int × Int)
  metadata : List (String × String)
deriving DecidableEq, Repr

/-- DayLedger dataclass (model.py). -/
structure DayLedger where
  day : Nat
  opening_cents : Int
  deposit_cents : Int
  action : String
  net_cents : Int
  bills_cents : Int
  closing_cents : Int
deriving DecidableEq, Repr

/-- Schedule dataclass (model.py); objective is the DP 3-tuple
(workdays, back-to-back pairs, abs distance from target). -/
structure Schedule where
  actions : List String
  objective : Nat × Nat × Int
  final_closing_cents : Int
  ledger : List DayLedger
deriving DecidableEq, Repr

/-- Total deposits plus manual adjustments credited on day t, from
build_prefix_arrays (model.py): entries contribute only when their day
equals t and lies in 1..30 (the `if 1 <= d.day <= 30` guards). -/
def depositByDay (plan : Plan) (t : Nat) : Int :=
  ((plan.deposits.filter
      (fun d => decide (d.day = (t : Int) ∧ 1 ≤ d.day ∧ d.day ≤ 30))).map
    (fun d => d.amount_cents)).sum
  + ((plan.manual_adjustments.filter
      (fun a => decide (a.day = (t : Int) ∧ 1 ≤ a.day ∧ a.day ≤ 30))).map
    (fun a => a.amount_cents)).sum

/-- Total bills charged on day t, from build_prefix_arrays (model.py). -/
def billByDay (plan : Plan) (t : Nat) : Int :=
  ((plan.bills.filter
      (fun b => decide (b.day = (t : Int) ∧ 1 ≤ b.day ∧ b.day ≤ 30))).map
    (fun b => b.amount_cents)).sum

/-- Sum of f 1 + ... + f n (the Python prefix sums over arrays indexed 1..30). -/
def sumTo (f : Nat → Int) : Nat → Int
  | 0 => 0
  | n + 1 => sumTo f n + f (n + 1)

/-- base_prefix array of build_prefix_arrays (model.py):
base[0] = 0 and base[t] = start_balance + sum of deposits-and-adjustments
minus bills over days 1..t. -/
def baseAt (plan : Plan) (t : Nat) : Int :=
  if t = 0 then 0
  else plan.start_balance_cents + sumTo (depositByDay plan) t - sumTo (billByDay plan) t

/-- pre_rent_base_on_day30 (model.py):
start + sum(deposit_by_day[1..30]) - sum(bills_by_day[1..29]). -/
def preRentBase30 (plan : Plan) : Int :=
  plan.start_balance_cents + sumTo (depositByDay plan) 30 - sumTo (billByDay plan) 29

/-! ## Money module: to_cents (model.py)

Python parses the input with Decimal(str(amount)) and quantizes to two
decimal places with ROUND_HALF_UP (nearest hundredth, ties away from zero).
We model the parsed decimal value of the input as an exact rational. -/

/-- Round a rational to the nearest integer, ties away from zero —
the integer-level content of Decimal ROUND_HALF_UP. -/
def halfUpInt (x : ℚ) : Int :=
  if 0 ≤ x then ⌊x + 1/2⌋ else -⌊-x + 1/2⌋

/-- Decimal(str(amount)).quantize(Decimal("0.01"), ROUND_HALF_UP):
the nearest multiple of 1/100, ties away from zero. -/
def quantizeHundredth (q : ℚ) : ℚ :=
  ((halfUpInt (100 * q) : ℚ)) / 100

/-- Python int(): truncation toward zero (exact here, d*100 is integral). -/
def pyIntTrunc (x : ℚ) : Int :=
  if 0 ≤ x then ⌊x⌋ else -⌊-x⌋

/-- to_cents (model.py): quantize to hundredths half-up, scale to cents,
reject when |cents| > MAX_AMOUNT_CENTS (ValueError). -/
def to_cents (q : ℚ) : Except String Int :=
  let d := quantizeHundredth q
  let cents := pyIntTrunc (d * 100)
  if MAX_AMOUNT_CENTS < |cents| then
    .error "Amount exceeds maximum allowed value"
  else
    .ok cents

/-! ## Ledger builder (src/cashflow/core/ledger.py) -/

/-- The loop body of build_ledger for days t, t+1, ... with r days remaining
and net_so_far accumulated action cents.  actions[t-1] missing models
IndexError; an unknown action symbol models KeyError — either yields none. -/
def ledgerRows (plan : Plan) (actions : List String) :
    Nat → Nat → Int → Option (List DayLedger)
  | _, 0, _ => some []
  | t, r + 1, netSoFar =>
    match actions.get? (t - 1) with
    | none => none
    | some a =>
      match lookupNet a with
      | none => none
      | some netToday =>
        let opening := (plan.start_balance_cents
            + sumTo (depositByDay plan) (t - 1) - sumTo (billByDay plan) (t - 1))
          + netSoFar
        let closing := baseAt plan t + netSoFar + netToday
        let row : DayLedger :=
          ⟨t, opening, depositByDay plan t, a, netToday, billByDay plan t, closing⟩
        (ledgerRows plan actions (t + 1) r (netSoFar + netToday)).map (row :: ·)

/-- build_ledger (ledger.py): one forward pass over days 1..30. -/
def build_ledger (plan : Plan) (actions : List String) : Option (List DayLedger) :=
  ledgerRows plan actions 1 30 0

/-! ## Validator (src/cashflow/core/validate.py) -/

/-- ValidationReport dataclass (validate.py): ok plus ordered
(name, pass, detail) checks. -/
structure ValidationReport where
  ok : Bool
  checks : List (String × Bool × String)
deriving DecidableEq, Repr

/-- Insert a string into an ascending list (used to model Python sorted). -/
def insertAsc (s : String) : List String → List String
  | [] => [s]
  | x :: rest => if x < s then x :: insertAsc s rest else s :: x :: rest

/-- Ascending sort of strings, modelling Python sorted() on code points. -/
def sortAsc : List String → List String
  | [] => []
  | x :: rest => insertAsc x (sortAsc rest)

/-- Off flag: 1 when the action is an off-day ("O"), else 0 — the
validator's and the DP solver's off flag. -/
def offFlag (a : String) : Nat :=
  if a = "O" then 1 else 0

/-- One pair probe of _has_off_off_last7 (validate.py): index i then, only
when flags[i] == 1, index i+1 (Python short-circuit); an out-of-range index
models IndexError (none). -/
def pairAt (l : List Nat) (i : Nat) : Option Bool := do
  let x ← l.get? i
  if x = 1 then do
    let y ← l.get? (i + 1)
    pure (y = 1)
  else
    pure false

/-- The i-loop of _has_off_off_last7 over the fixed index list, with
Python's early return True. -/
def pairScan (l : List Nat) : List Nat → Option Bool
  | [] => some false
  | i :: rest => do
    let b ← pairAt l i
    if b then pure true else pairScan l rest

/-- _has_off_off_last7 (validate.py): scans pairs at indices 0..5. -/
def hasOffOffLast7 (l : List Nat) : Option Bool :=
  pairScan l [0, 1, 2, 3, 4, 5]

/-- The window loop of validate: windows starting at s = 0..23, stopping at
the first failing window (Python break). -/
def windowScan (off : List Nat) : List Nat → Option Bool
  | [] => some true
  | s :: rest => do
    let b ← hasOffOffLast7 ((off.drop s).take 7)
    if b then windowScan off rest else pure false

/-- sum(SHIFT_NET_CENTS[a] for a in actions): none models the KeyError
raised at the first unknown action symbol. -/
def netTotalM : List String → Option Int
  | [] => some 0
  | a :: rest => do
    let d ← lookupNet a
    let r ← netTotalM rest
    pure (d + r)

/-- The non-negativity loop of validate over schedule.ledger. -/
def nonNegClosings : List DayLedger → Bool
  | [] => true
  | row :: rest => if row.closing_cents < 0 then false else nonNegClosings rest

/-- validate (validate.py).  Returns none when the Python code would raise
(the KeyError from summing net deltas over an unknown action symbol, or an
IndexError inside the window scan).  Checks appear in source order; ok is
their conjunction. -/
def validate (plan : Plan) (schedule : Schedule) : Option ValidationReport := do
  let validActions := schedule.actions.all (fun a => (lookupNet a).isSome)
  let detail1 := "\x7b" ++ String.intercalate "," (sortAsc schedule.actions.dedup) ++ "\x7d"
  let check1 := ("Actions valid", validActions, detail1)
  let check2 := ("Non-negative balances", nonNegClosings schedule.ledger,
    "closing>=0 for all t")
  let final := schedule.final_closing_cents
  let lo := plan.target_end_cents - plan.band_cents
  let hi := plan.target_end_cents + plan.band_cents
  let check3 := ("Final within band", decide (lo ≤ final ∧ final ≤ hi),
    toString final ++ " in [" ++ toString lo ++ "," ++ toString hi ++ "]")
  let pre30 := preRentBase30 plan
  let netTotal ← netTotalM schedule.actions
  let preRentBalance := pre30 + netTotal
  let check4 := ("Day-30 pre-rent guard",
    decide (plan.rent_guard_cents ≤ preRentBalance),
    toString preRentBalance ++ ">= " ++ toString plan.rent_guard_cents)
  let off := schedule.actions.map offFlag
  let offOk ← windowScan off (List.range 24)
  let check5 := ("7-day Off,Off present", offOk, "every 7-day window")
  let checks := [check1, check2, check3, check4, check5]
  let ok := checks.all (fun c => c.2.1)
  pure ⟨ok, checks⟩

/-! ## CP-SAT engine, in-repo part (src/cashflow/engines/cpsat.py)

The CP-SAT search itself runs inside OR-Tools, an external library.  We
embed the in-repo computation that precedes any search — the model
construction _build_model — which performs dictionary lookups that can
raise, and the comparison logic of verify_lex_optimal.  The external
search is abstracted as a parameter; every theorem below quantifies over
it, because control provably never reaches it. -/

/-- Error kinds of the CP-SAT wrapper: KeyError from a dictionary lookup,
IndexError from indexing plan.actions. -/
inductive CPError where
  | keyError (k : String)
  | indexError
deriving DecidableEq, Repr

/-- ACTIONS tuple of cpsat.py: the five-symbol historical alphabet. -/
def ACTIONS_CP : List String := ["O", "S", "M", "L", "SS"]

/-- CPSATSolution dataclass (cpsat.py): 5-part objective. -/
structure CPSATSolution where
  actions : List String
  objective : Int × Int × Int × Int × Int
  final_closing_cents : Int
  statuses : List String
deriving DecidableEq, Repr

/-- VerificationReport dataclass (cpsat.py). -/
structure CPVerificationReport where
  ok : Bool
  dp_obj : Nat × Nat × Int
  cp_obj : Int × Int × Int × Int × Int
  dp_actions : List String
  cp_actions : List String
  detail : String
deriving DecidableEq, Repr

/-- The lock loop of _build_model: for t in range(30), a non-None
plan.actions[t] is looked up in IDX (KeyError when the symbol is not one
of ACTIONS); indexing past the end of plan.actions is an IndexError. -/
def cpLockChecks (plan : Plan) : Except CPError Unit :=
  (List.range 30).foldlM
    (fun _ t =>
      match plan.actions.get? t with
      | none => .error .indexError
      | some none => .ok ()
      | some (some s) => if s ∈ ACTIONS_CP then .ok () else .error (.keyError s))
    ()

/-- net_vec = [SHIFT_NET_CENTS[a] for a in ACTIONS] (cpsat.py line 188):
the lookups run left to right and raise KeyError at the first symbol
absent from SHIFT_NET_CENTS. -/
def cpNetVec : List String → Except CPError (List Int)
  | [] => .ok []
  | a :: rest =>
    match lookupNet a with
    | none => .error (.keyError a)
    | some d => (cpNetVec rest).map (d :: ·)

/-- The fallible computation inside _build_model (cpsat.py), in source
order: the per-day lock lookups, then the net_vec lookups over ACTIONS.
Constraint posting itself is side-effect-free model building and cannot
raise. -/
def cpBuildModel (plan : Plan) : Except CPError (List Int) := do
  let _ ← cpLockChecks plan
  cpNetVec ACTIONS_CP

/-- solve_lex (cpsat.py): builds the model, then hands it to the external
CP-SAT search (the `search` parameter; OR-Tools is not part of this
repository).  The search is reached only if cpBuildModel succeeds. -/
def solve_lex (search : Plan → Except CPError CPSATSolution) (plan : Plan) :
    Except CPError CPSATSolution := do
  let _ ← cpBuildModel plan
  search plan

/-- Python equality between the CP-SAT 5-tuple objective and the DP 3-tuple
objective: tuples of different lengths never compare equal. -/
def objTupleEq (_cp : Int × Int × Int × Int × Int) (_dp : Nat × Nat × Int) : Bool :=
  false

/-- verify_lex_optimal (cpsat.py): runs solve_lex; on any exception returns
ok=False with cp_obj = (-1,...,-1); otherwise ok is the Python equality of
the two objective tuples. -/
def verify_lex_optimal (search : Plan → Except CPError CPSATSolution)
    (plan : Plan) (scheduleDp : Schedule) : CPVerificationReport :=
  match solve_lex search plan with
  | .error e =>
    ⟨false, scheduleDp.objective, (-1, -1, -1, -1, -1), scheduleDp.actions, [],
      "CP-SAT error: " ++ reprStr e⟩
  | .ok sol =>
    let ok := objTupleEq sol.objective scheduleDp.objective
    ⟨ok, scheduleDp.objective, sol.objective, scheduleDp.actions, sol.actions,
      if ok then "OK" else "Mismatch between DP and CP-SAT objectives"⟩

/-! ## DP solver (src/cashflow/engines/dp.py) -/

/-- Error kinds of the DP solver: the RuntimeError raised when no layer-30
state lies within the band, and KeyError / IndexError / AssertionError
(all grouped as keyError) from reconstruction and ledger lookups. -/
inductive Err where
  | infeasible (msg : String)
  | keyError
  | badRequest (msg : String)
deriving DecidableEq, Repr

/-- DP state key (dp.py): (last6_off tuple oldest→newest, prev_worked,
workdays_used, prefix_net). -/
structure StateKey where
  last6 : List Nat
  prevW : Nat
  workUsed : Nat
  net : Int
deriving DecidableEq, Repr

/-- _StateVal (dp.py): additive back-to-back count plus back-pointer. -/
structure StateVal where
  b2b : Nat
  back : Option (StateKey × String)
deriving DecidableEq, Repr

/-- One DP layer: a Python dict keyed by state tuples, as an association
list with unique keys. -/
abbrev Layer := List (StateKey × StateVal)

/-- Python dict lookup. -/
def dictLookup : Layer → StateKey → Option StateVal
  | [], _ => none
  | (k', v') :: rest, k => if k' = k then some v' else dictLookup rest k

/-- Python dict assignment: replace in place, or append a fresh key. -/
def dictInsert : Layer → StateKey → StateVal → Layer
  | [], k, v => [(k, v)]
  | (k', v') :: rest, k, v =>
    if k' = k then (k, v) :: rest else (k', v') :: dictInsert rest k v

/-- plan.actions[day-1] if day-1 < len(plan.actions) else None (dp.py). -/
def lockedAt (plan : Plan) (day : Nat) : Option String :=
  (plan.actions.get? (day - 1)).getD none

/-- _allowed_actions (dp.py): a lock restricts to itself; day 1 forces
Spark; the forbid flag restricts later days to O; otherwise both actions. -/
def allowedActions (day : Nat) (locked : Option String) (forbid : Bool) :
    List String :=
  match locked with
  | some s => [s]
  | none =>
    if day = 1 then ["Spark"]
    else if forbid then ["O"] else ["O", "Spark"]

/-- _has_off_off (dp.py): any adjacent 1,1 pair in the vector. -/
def hasOffOff : List Nat → Bool
  | x :: y :: rest => (x == 1 && y == 1) || hasOffOff (y :: rest)
  | _ => false

/-- The last n elements of a list (Python l[-n:]). -/
def lastN (l : List Nat) (n : Nat) : List Nat :=
  l.drop (l.length - n)

/-- MAX_DAY_NET = max(SHIFT_NET_CENTS.values()) (dp.py). -/
def MAX_DAY_NET : Int :=
  (SHIFT_NET_CENTS.map Prod.snd).foldl max 0

/-- min_net bound of dp.solve: (target - band) - base[30]. -/
def minNet (plan : Plan) : Int :=
  (plan.target_end_cents - plan.band_cents) - baseAt plan 30

/-- max_net bound of dp.solve: (target + band) - base[30]. -/
def maxNet (plan : Plan) : Int :=
  (plan.target_end_cents + plan.band_cents) - baseAt plan 30

/-- will_work of dp.solve: 1 if a != "O" else 0. -/
def workFlag (a : String) : Nat :=
  if a ≠ "O" then 1 else 0

/-- The back-to-back increment of dp.solve:
1 if (prev_worked == 1 and will_work == 1) else 0. -/
def b2bBonus (prevW willWork : Nat) : Nat :=
  if prevW = 1 ∧ willWork = 1 then 1 else 0

/-- The transition body of dp.solve for one predecessor state and one
allowed action: compute the new net, apply the four pruning rules (global
net bounds, off-off window for day ≥ 7, non-negative closing, day-30
pre-rent guard), then insert keeping the lexicographically best
(workdays, b2b) value per key, retaining the incumbent on ties.
A failed SHIFT_NET_CENTS lookup is the Python KeyError. -/
def tryInsert (plan : Plan) (day : Nat) (k0 : StateKey) (v0 : StateVal)
    (cur : Layer) (a : String) : Except Err Layer :=
  let willWork : Nat := workFlag a
  let workUsedNew := k0.workUsed + willWork
  match lookupNet a with
  | none => .error .keyError
  | some delta =>
    let netNew := k0.net + delta
    let daysLeft : Nat := 30 - day
    if maxNet plan < netNew then .ok cur
    else if netNew + MAX_DAY_NET * (daysLeft : Int) < minNet plan then .ok cur
    else
      let offToday : Nat := offFlag a
      let last7 := k0.last6 ++ [offToday]
      if 7 ≤ day ∧ hasOffOff last7 = false then .ok cur
      else
        let last6New := lastN last7 6
        let closing := baseAt plan day + netNew
        if closing < 0 then .ok cur
        else if day = 30 ∧ preRentBase30 plan + netNew < plan.rent_guard_cents then
          .ok cur
        else
          let b2bNew := v0.b2b + b2bBonus k0.prevW willWork
          let sk : StateKey := ⟨last6New, willWork, workUsedNew, netNew⟩
          let newVal : StateVal := ⟨b2bNew, some (k0, a)⟩
          match dictLookup cur sk with
          | none => .ok (dictInsert cur sk newVal)
          | some existing =>
            if workUsedNew < workUsedNew
                ∨ (workUsedNew = workUsedNew ∧ b2bNew < existing.b2b) then
              .ok (dictInsert cur sk newVal)
            else .ok cur

/-- One day of the DP: fold the transition over every state of the previous
layer and every allowed action, building the new layer from the empty dict. -/
def stepDay (plan : Plan) (forbid : Bool) (day : Nat) (prev : Layer) :
    Except Err Layer :=
  prev.foldlM
    (fun cur kv =>
      (allowedActions day (lockedAt plan day) forbid).foldlM
        (fun cur' a => tryInsert plan day kv.1 kv.2 cur' a) cur)
    ([] : Layer)

/-- The initial layer: the single day-0 state ((), 0, 0, 0) with b2b 0 and
no back-pointer. -/
def initLayer : Layer := [(⟨[], 0, 0, 0⟩, ⟨0, none⟩)]

/-- Layers 0..n of the DP (the Python layers list after day n). -/
def layersUpTo (plan : Plan) (forbid : Bool) : Nat → Except Err (List Layer)
  | 0 => .ok [initLayer]
  | d + 1 => do
    let ls ← layersUpTo plan forbid d
    let cur ← stepDay plan forbid (d + 1) (ls.getLast?.getD [])
    pure (ls ++ [cur])

/-- Lexicographic < on the DP objective triple, as Python tuple <. -/
def objLt (x y : Nat × Nat × Int) : Prop :=
  x.1 < y.1 ∨ (x.1 = y.1 ∧ (x.2.1 < y.2.1 ∨ (x.2.1 = y.2.1 ∧ x.2.2 < y.2.2)))

instance (x y : Nat × Nat × Int) : Decidable (objLt x y) := by
  unfold objLt; infer_instance

/-- The final-selection loop of dp.solve: over layer-30 states whose final
closing lies within the band, keep the strictly smaller objective
(work_used, b2b, |final - target|), retaining the first on ties. -/
def selectBest (plan : Plan) (last : Layer) :
    Option ((Nat × Nat × Int) × StateKey × StateVal) :=
  last.foldl
    (fun best kv =>
      let finalClosing := baseAt plan 30 + kv.1.net
      if plan.target_end_cents - plan.band_cents ≤ finalClosing
          ∧ finalClosing ≤ plan.target_end_cents + plan.band_cents then
        let obj := (kv.1.workUsed, kv.2.b2b, |finalClosing - plan.target_end_cents|)
        match best with
        | none => some (obj, kv.1, kv.2)
        | some b => if objLt obj b.1 then some (obj, kv.1, kv.2) else best
      else best)
    none

/-- Back-pointer reconstruction (dp.py): walk day, day-1, ..., 1, looking
the predecessor key up in the previous layer, emitting actions in order.
A missing back-pointer or a failed layer lookup models the Python
AssertionError / KeyError. -/
def reconFrom (layers : List Layer) : Nat → StateVal → Option (List String)
  | 0, _ => some []
  | d + 1, v =>
    match v.back with
    | none => none
    | some (pk, a) =>
      match dictLookup ((layers.get? d).getD []) pk with
      | none => none
      | some pv => (reconFrom layers d pv).map (· ++ [a])

/-- dp.solve: build layers 1..30, select the best in-band final state (or
raise the RuntimeError), reconstruct the action vector, build the ledger,
and assemble the Schedule. -/
def solve (plan : Plan) (forbid : Bool) : Except Err Schedule := do
  let layers ← layersUpTo plan forbid 30
  match selectBest plan (layers.getLast?.getD []) with
  | none => .error (.infeasible "No feasible schedule found under constraints and band")
  | some (obj, _k, v) =>
    match reconFrom layers 30 v with
    | none => .error .keyError
    | some actions =>
      match build_ledger plan actions with
      | none => .error .keyError
      | some ledger =>
        match ledger.getLast? with
        | none => .error .keyError
        | some lastRow =>
          .ok ⟨actions, obj, lastRow.closing_cents, ledger⟩

/-! ## Resume operation (src/api/set_eod.py handler, src/cashflow/cli.py
cmd_set_eod): lock the baseline prefix, inject a correcting adjustment on
day d, re-solve. -/

/-- The plan mutation of the handler: plan.actions = baseline.actions[:day]
+ [None]*(30-day), and manual_adjustments extended with the correcting
Adjustment(day, delta, "api set-eod"); all other fields unchanged. -/
def resumePlan (plan : Plan) (baselineActions : List String) (day : Nat)
    (delta : Int) : Plan :=
  ⟨plan.start_balance_cents, plan.target_end_cents, plan.band_cents,
    plan.rent_guard_cents, plan.deposits, plan.bills,
    (baselineActions.take day).map some ++ List.replicate (30 - day) none,
    plan.manual_adjustments ++ [⟨(day : Int), delta, "api set-eod"⟩],
    plan.locks, plan.metadata⟩

/-- The core of the set_eod handler, with the desired closing given
directly in cents.  Returns 400 (badRequest) for a day outside 1..30;
otherwise solves the baseline, computes delta = desired - baseline closing
of day d, locks actions 1..d to the baseline, appends the adjustment, and
re-solves. -/
def resume (plan : Plan) (day : Nat) (desiredCents : Int) : Except Err Schedule :=
  if ¬(1 ≤ day ∧ day ≤ 30) then .error (.badRequest "day must be in 1..30")
  else do
    let baseline ← solve plan false
    match build_ledger plan baseline.actions with
    | none => .error .keyError
    | some baseLedger =>
      match baseLedger.get? (day - 1) with
      | none => .error .keyError
      | some row =>
        let delta := desiredCents - row.closing_cents
        solve (resumePlan plan baseline.actions day delta) false

/-- Keys of a layer are pairwise distinct. -/
def NoDupKeys (L : Layer) : Prop := (L.map Prod.fst).Nodup

/-- Cumulative action net of the first n actions, reading the payout table
with default 0 (equal to the true payouts whenever the ledger build
succeeds). -/
def netSumTo (l : List String) (n : Nat) : Int :=
  ((l.take n).map (fun a => (lookupNet a).getD 0)).sum

/-- What one surviving DP transition guarantees: how the new key's window
history extends the predecessor's, that the day-≥7 off-off window check
passed, and what the back-pointer records. -/
def Origin (plan : Plan) (forbid : Bool) (day : Nat) (prev : Layer)
    (kv : StateKey × StateVal) : Prop :=
  ∃ k0 v0 a, (k0, v0) ∈ prev ∧
    a ∈ allowedActions day (lockedAt plan day) forbid ∧
    kv.1.last6 = lastN (k0.last6 ++ [offFlag a]) 6 ∧
    (7 ≤ day → hasOffOff (k0.last6 ++ [offFlag a]) = true) ∧
    kv.2.back = some (k0, a)

/-- The reconstruction invariant of a layer-t DP state: walking the
back-pointers yields a t-day action prefix whose off-history matches the
state key, which passed every day-≥7 off-off window check, and which honors
every lock among days 1..t. -/
def InvVal (plan : Plan) (L : List Layer) (t : Nat) (k : StateKey)
    (v : StateVal) : Prop :=
  ∃ acts : List String,
    reconFrom L t v = some acts ∧
    acts.length = t ∧
    k.last6 = lastN (acts.map offFlag) 6 ∧
    (∀ i, 7 ≤ i → i ≤ t → hasOffOff (lastN ((acts.take i).map offFlag) 7) = true) ∧
    (∀ i s, 1 ≤ i → i ≤ t → lockedAt plan i = some s → acts.get? (i - 1) = some s)

/-- The same plan with every deposit, bill and manual adjustment whose day
lies outside 1..30 removed. -/
def filterPlan (p : Plan) : Plan :=
  ⟨p.start_balance_cents, p.target_end_cents, p.band_cents, p.rent_guard_cents,
    p.deposits.filter (fun d => decide (1 ≤ d.day ∧ d.day ≤ 30)),
    p.bills.filter (fun b => decide (1 ≤ b.day ∧ b.day ≤ 30)),
    p.actions,
    p.manual_adjustments.filter (fun a => decide (1 ≤ a.day ∧ a.day ≤ 30)),
    p.locks, p.metadata⟩

/-! ## Concrete instances used by witnesses and counterexamples -/

/-- Placeholder schedule for Option extraction in witnesses. -/
def dummySched : Schedule := ⟨[], (0, 0, 0), 0, []⟩

/-- A fully locked 30-day pattern Spark,O,O,Spark,O,O,... (10 workdays). -/
def wplanActions : List (Option String) :=
  (List.range 30).map (fun i => if i % 3 = 0 then some "Spark" else some "O")

/-- A feasible example plan: start 0, target 100000, band 0, rent guard 0,
no deposits or bills, all 30 days locked to the Spark,O,O pattern. -/
def wplan : Plan := ⟨0, 100000, 0, 0, [], [], wplanActions, [], [], []⟩

/-- The schedule the DP solver returns on wplan. -/
def wsched : Schedule := (solve wplan false).toOption.getD dummySched

/-- The schedule resume returns on wplan for day 28, desired closing 80000. -/
def wres : Schedule := (resume wplan 28 80000).toOption.getD dummySched

/-- Infeasible by non-negativity: a 100000-cent bill on day 1 exceeds the
start balance, so the day-1 closing is negative for every action; the
day-2 deposit keeps the band bounds satisfiable so the capacity prunes
pass and the non-negativity check is the one that rejects. -/
def planA : Plan :=
  ⟨0, 110000, 0, 0, [⟨2, 200000⟩], [⟨1, "B", 100000⟩],
    List.replicate 30 none, [], [], []⟩

/-- Infeasible by the band: target 400000 exceeds the maximum attainable
net 300000, so the capacity prune rejects every day-1 transition. -/
def planB : Plan :=
  ⟨0, 400000, 0, 0, [], [], List.replicate 30 none, [], [], []⟩

/-- An all-zero plan whose day-2 slot is locked to Spark and day 1 is free. -/
def plan0 : Plan :=
  ⟨0, 0, 0, 0, [], [], [none, some "Spark"] ++ List.replicate 28 none, [], [], []⟩

/-- A schedule of 30 off-days with an empty ledger: it violates plan0's
day-2 lock and the day-1 working-action rule, yet satisfies every check
the validator actually performs. -/
def sched0 : Schedule := ⟨List.replicate 30 "O", (0, 0, 0), 0, []⟩

/-- An all-zero plan with no locks. -/
def czplan : Plan :=
  ⟨0, 0, 0, 0, [], [], List.replicate 30 none, [], [], []⟩

/-- Thirty off-days. -/
def oActs : List String := List.replicate 30 "O"

/-- A schedule whose action vector holds the unknown symbol "X". -/
def schedX : Schedule := ⟨List.replicate 30 "X", (0, 0, 0), 0, []⟩

/-! ## Generic helper lemmas: Except binds, monadic folds, dictionaries -/

theorem except_bind_ok {ε α β : Type} (x : Except ε α) (g : α → Except ε β)
    (r : β) (h : x >>= g = .ok r) : ∃ b, x = .ok b ∧ g b = .ok r := by
  cases x with
  | error e => simp only [Bind.bind, Except.bind] at h; cases h
  | ok b => exact ⟨b, rfl, by simpa only [Bind.bind, Except.bind] using h⟩

theorem except_bind_error {ε α β : Type} (x : Except ε α) (g : α → Except ε β)
    (e : ε) (h : x >>= g = .error e) :
    x = .error e ∨ ∃ b, x = .ok b ∧ g b = .error e := by
  cases x with
  | error e' =>
    left
    simp only [Bind.bind, Except.bind] at h
    cases h
    rfl
  | ok b => right; exact ⟨b, rfl, by simpa only [Bind.bind, Except.bind] using h⟩

theorem foldlM_ok_induct {ε α β : Type} (f : β → α → Except ε β) (P : β → Prop) :
    ∀ (l : List α) (init : β), P init →
      (∀ b a b', a ∈ l → P b → f b a = .ok b' → P b') →
      ∀ res, l.foldlM f init = .ok res → P res := by
  intro l
  induction l with
  | nil =>
    intro init hinit _ res hres
    simp only [List.foldlM_nil, pure, Except.pure] at hres
    cases hres
    exact hinit
  | cons a tl ih =>
    intro init hinit hstep res hres
    rw [List.foldlM_cons] at hres
    obtain ⟨b, hb, hrest⟩ := except_bind_ok _ _ _ hres
    exact ih b (hstep init a b (by simp) hinit hb)
      (fun b' a' b'' ha' => hstep b' a' b'' (by simp [ha'])) res hrest

theorem foldlM_error_kind {ε α β : Type} (f : β → α → Except ε β) (E : ε → Prop) :
    ∀ (l : List α) (init : β),
      (∀ b a e, a ∈ l → f b a = .error e → E e) →
      ∀ e, l.foldlM f init = .error e → E e := by
  intro l
  induction l with
  | nil =>
    intro init _ e he
    simp only [List.foldlM_nil, pure, Except.pure] at he
    cases he
  | cons a tl ih =>
    intro init herr e he
    rw [List.foldlM_cons] at he
    rcases except_bind_error _ _ _ he with h | ⟨b, _, hrest⟩
    · exact herr init a e (by simp) h
    · exact ih b (fun b' a' e' ha' => herr b' a' e' (by simp [ha'])) e hrest


theorem mem_keys_dictInsert {L : Layer} {k x : StateKey} {v : StateVal}
    (h : x ∈ (dictInsert L k v).map Prod.fst) : x = k ∨ x ∈ L.map Prod.fst := by
  induction L with
  | nil => simpa [dictInsert] using h
  | cons kv rest ih =>
    obtain ⟨k', v'⟩ := kv
    by_cases hk : k' = k
    · simp only [dictInsert, if_pos hk, List.map_cons, List.mem_cons] at h ⊢
      tauto
    · simp only [dictInsert, if_neg hk, List.map_cons, List.mem_cons] at h ⊢
      rcases h with h | h
      · tauto
      · rcases ih h with h1 | h1 <;> tauto

theorem noDupKeys_dictInsert {L : Layer} {k : StateKey} {v : StateVal}
    (h : NoDupKeys L) : NoDupKeys (dictInsert L k v) := by
  induction L with
  | nil => simp [dictInsert, NoDupKeys]
  | cons kv rest ih =>
    obtain ⟨k', v'⟩ := kv
    unfold NoDupKeys at h
    simp only [List.map_cons, List.nodup_cons] at h
    by_cases hk : k' = k
    · unfold NoDupKeys
      simp only [dictInsert, if_pos hk, List.map_cons, List.nodup_cons]
      exact ⟨by rw [← hk]; exact h.1, h.2⟩
    · unfold NoDupKeys
      simp only [dictInsert, if_neg hk, List.map_cons, List.nodup_cons]
      refine ⟨fun hmem => ?_, ih h.2⟩
      rcases mem_keys_dictInsert hmem with h1 | h1
      · exact hk h1
      · exact h.1 h1

theorem mem_dictInsert {L : Layer} {k : StateKey} {v : StateVal}
    {kv : StateKey × StateVal} (h : kv ∈ dictInsert L k v) :
    kv = (k, v) ∨ kv ∈ L := by
  induction L with
  | nil => simpa [dictInsert] using h
  | cons kv' rest ih =>
    obtain ⟨k', v'⟩ := kv'
    by_cases hk : k' = k
    · simp only [dictInsert, if_pos hk, List.mem_cons] at h ⊢
      tauto
    · simp only [dictInsert, if_neg hk, List.mem_cons] at h ⊢
      rcases h with h | h
      · tauto
      · rcases ih h with h1 | h1 <;> tauto

theorem dictLookup_eq_of_mem {L : Layer} {k : StateKey} {v : StateVal}
    (hnd : NoDupKeys L) (h : (k, v) ∈ L) : dictLookup L k = some v := by
  induction L with
  | nil => cases h
  | cons kv rest ih =>
    obtain ⟨k', v'⟩ := kv
    unfold NoDupKeys at hnd
    simp only [List.map_cons, List.nodup_cons] at hnd
    rcases List.mem_cons.mp h with h1 | h1
    · cases h1
      simp [dictLookup]
    · have hk : k' ≠ k := by
        intro he
        exact hnd.1 (by rw [he]; exact List.mem_map_of_mem Prod.fst h1)
      simp only [dictLookup, if_neg hk]
      exact ih hnd.2 h1

/-! ## Window-history lemmas -/

theorem lastN_append_one (l : List Nat) (x : Nat) (n : Nat) :
    lastN (l ++ [x]) (n + 1) = lastN l n ++ [x] := by
  unfold lastN
  rw [List.length_append]
  simp only [List.length_singleton]
  rw [List.drop_append_of_le_length (by omega)]
  have harith : l.length + 1 - (n + 1) = l.length - n := by omega
  rw [harith]

theorem lastN_lastN (l : List Nat) (m n : Nat) (h : n ≤ m) :
    lastN (lastN l m) n = lastN l n := by
  unfold lastN
  rw [List.drop_drop, List.length_drop]
  congr 1
  omega

theorem lastN_absorb (l : List Nat) (x : Nat) :
    lastN (lastN l 6 ++ [x]) 6 = lastN (l ++ [x]) 6 := by
  have h1 : lastN (lastN l 6 ++ [x]) 6 = lastN (lastN l 6) 5 ++ [x] :=
    lastN_append_one _ _ 5
  rw [h1, lastN_lastN l 6 5 (by omega), ← lastN_append_one]

theorem lastN_seven (l : List Nat) (x : Nat) :
    lastN l 6 ++ [x] = lastN (l ++ [x]) 7 := by
  rw [lastN_append_one]

theorem hasOffOff_iff (l : List Nat) :
    hasOffOff l = true ↔ ∃ i, l.get? i = some 1 ∧ l.get? (i + 1) = some 1 := by
  induction l with
  | nil => simp [hasOffOff]
  | cons x tl ih =>
    cases tl with
    | nil =>
      simp only [hasOffOff]
      constructor
      · intro h; cases h
      · rintro ⟨i, h1, h2⟩
        rcases i with _ | i <;> simp [List.get?] at h1 h2
    | cons y rest =>
      simp only [hasOffOff, Bool.or_eq_true, Bool.and_eq_true, beq_iff_eq]
      rw [ih]
      constructor
      · rintro (⟨hx, hy⟩ | ⟨i, h1, h2⟩)
        · exact ⟨0, by simp [hx, hy]⟩
        · exact ⟨i + 1, by simpa using h1, by simpa using h2⟩
      · rintro ⟨i, h1, h2⟩
        rcases i with _ | i
        · left
          simp only [List.get?] at h1 h2
          cases h1; cases h2; exact ⟨rfl, rfl⟩
        · right
          exact ⟨i, by simpa using h1, by simpa using h2⟩

/-! ## Prefix-sum and ledger lemmas -/

theorem sumTo_succ (f : Nat → Int) (n : Nat) :
    sumTo f (n + 1) = sumTo f n + f (n + 1) := rfl

theorem sumTo_congr {f g : Nat → Int} (h : ∀ i, 1 ≤ i → i ≤ n → f i = g i) :
    sumTo f n = sumTo g n := by
  induction n with
  | zero => rfl
  | succ m ih =>
    unfold sumTo
    rw [ih (fun i h1 h2 => h i h1 (by omega)), h (m + 1) (by omega) (by omega)]


theorem netSumTo_congr {l l' : List String} (n : Nat)
    (h : l.take n = l'.take n) : netSumTo l n = netSumTo l' n := by
  unfold netSumTo
  rw [h]

theorem ledgerRows_length {plan : Plan} {actions : List String} :
    ∀ {r t : Nat} {net : Int} {rows : List DayLedger},
      ledgerRows plan actions t r net = some rows → rows.length = r := by
  intro r
  induction r with
  | zero =>
    intro t net rows h
    unfold ledgerRows at h
    cases h
    rfl
  | succ m ih =>
    intro t net rows h
    unfold ledgerRows at h
    cases ha : actions.get? (t - 1) with
    | none => rw [ha] at h; cases h
    | some a =>
      cases hd : lookupNet a with
      | none => simp only [ha, hd] at h; exact Option.noConfusion h
      | some d =>
        simp only [ha, hd, Option.map_eq_some'] at h
        obtain ⟨rest, hrest, hrows⟩ := h
        rw [← hrows]
        simp [ih hrest]

theorem ledgerRows_rowInvariant {plan : Plan} {actions : List String} :
    ∀ {r t : Nat} {net : Int} {rows : List DayLedger},
      1 ≤ t → ledgerRows plan actions t r net = some rows →
      ∀ row ∈ rows,
        row.closing_cents =
          row.opening_cents + row.deposit_cents + row.net_cents - row.bills_cents := by
  intro r
  induction r with
  | zero =>
    intro t net rows _ h row hrow
    unfold ledgerRows at h
    cases h
    cases hrow
  | succ m ih =>
    intro t net rows ht h row hrow
    unfold ledgerRows at h
    cases ha : actions.get? (t - 1) with
    | none => rw [ha] at h; cases h
    | some a =>
      cases hd : lookupNet a with
      | none => simp only [ha, hd] at h; exact Option.noConfusion h
      | some d =>
        simp only [ha, hd, Option.map_eq_some'] at h
        obtain ⟨rest, hrest, hrows⟩ := h
        rw [← hrows] at hrow
        rcases List.mem_cons.mp hrow with h1 | h1
        · subst h1
          simp only
          obtain ⟨t', rfl⟩ : ∃ t', t = t' + 1 := ⟨t - 1, by omega⟩
          have hbase : baseAt plan (t' + 1) =
              plan.start_balance_cents + sumTo (depositByDay plan) (t' + 1)
                - sumTo (billByDay plan) (t' + 1) := by
            unfold baseAt
            rw [if_neg (by omega)]
          simp only [Nat.add_sub_cancel]
          rw [hbase, sumTo_succ, sumTo_succ]
          ring
        · exact ih (by omega) hrest row h1

theorem ledgerRows_total {plan : Plan} {actions : List String}
    (hall : ∀ a ∈ actions, (lookupNet a).isSome) :
    ∀ (r t : Nat) (net : Int), t - 1 + r ≤ actions.length →
      (ledgerRows plan actions t r net).isSome := by
  intro r
  induction r with
  | zero => intro t net _; rfl
  | succ m ih =>
    intro t net hlen
    have hlt : t - 1 < actions.length := by omega
    have ha : actions.get? (t - 1) = some (actions.get ⟨t - 1, hlt⟩) :=
      List.get?_eq_get hlt
    have hmem : actions.get ⟨t - 1, hlt⟩ ∈ actions := List.get?_mem ha
    obtain ⟨d, hd⟩ := Option.isSome_iff_exists.mp (hall _ hmem)
    have hrest := ih (t + 1) (net + d) (by omega)
    unfold ledgerRows
    simp only [ha, hd]
    rw [Option.isSome_map']
    exact hrest

theorem ledgerRows_closing {plan : Plan} {actions : List String} :
    ∀ {r t : Nat} {net : Int} {rows : List DayLedger},
      1 ≤ t → ledgerRows plan actions t r net = some rows →
      ∀ j < r, ∃ row, rows.get? j = some row ∧
        row.closing_cents =
          baseAt plan (t + j) + (net + netSumTo (actions.drop (t - 1)) (j + 1)) := by
  intro r
  induction r with
  | zero => intro t net rows _ _ j hj; omega
  | succ m ih =>
    intro t net rows ht h j hj
    unfold ledgerRows at h
    cases ha : actions.get? (t - 1) with
    | none => rw [ha] at h; cases h
    | some a =>
      cases hd : lookupNet a with
      | none => simp only [ha, hd] at h; exact Option.noConfusion h
      | some d =>
        simp only [ha, hd, Option.map_eq_some'] at h
        obtain ⟨rest, hrest, hrows⟩ := h
        have hdrop : actions.drop (t - 1) = a :: actions.drop t := by
          have h1 : t - 1 < actions.length := by
            by_contra hc
            rw [List.get?_eq_none.mpr (by omega)] at ha
            cases ha
          have hget : actions.get ⟨t - 1, h1⟩ = a := by
            have h2 := List.get?_eq_get (l := actions) h1
            rw [h2] at ha
            exact Option.some.inj ha
          have h3 : t - 1 + 1 = t := by omega
          rw [List.drop_eq_get_cons h1, hget, h3]
        rcases j with _ | j'
        · refine ⟨_, by rw [← hrows]; rfl, ?_⟩
          simp only [Nat.add_zero]
          unfold netSumTo
          rw [hdrop]
          simp [hd]
          ring
        · obtain ⟨row, hrow, hclose⟩ := ih (t := t + 1) (by omega) hrest j' (by omega)
          refine ⟨row, by rw [← hrows]; simpa using hrow, ?_⟩
          rw [hclose]
          have harith : t + 1 + j' = t + (j' + 1) := by omega
          rw [harith]
          congr 1
          have hdrop2 : actions.drop (t + 1 - 1) = actions.drop t := by congr 1
          rw [hdrop2]
          unfold netSumTo
          rw [hdrop]
          simp only [List.take_succ_cons, List.map_cons, List.sum_cons, hd,
            Option.getD_some]
          ring

/-! ## DP layer structure lemmas -/


theorem origin_insert {plan : Plan} {forbid : Bool} {day : Nat}
    {prev cur : Layer} {k0 : StateKey} {v0 : StateVal} {a : String}
    {K : StateKey} {V : StateVal}
    (hnd : NoDupKeys cur) (hq : ∀ kv ∈ cur, Origin plan forbid day prev kv)
    (hmem : (k0, v0) ∈ prev)
    (ha : a ∈ allowedActions day (lockedAt plan day) forbid)
    (hwin : 7 ≤ day → hasOffOff (k0.last6 ++ [offFlag a]) = true)
    (hl6 : K.last6 = lastN (k0.last6 ++ [offFlag a]) 6)
    (hback : V.back = some (k0, a)) :
    NoDupKeys (dictInsert cur K V) ∧
      ∀ kv ∈ dictInsert cur K V, Origin plan forbid day prev kv := by
  refine ⟨noDupKeys_dictInsert hnd, fun kv hkv => ?_⟩
  rcases mem_dictInsert hkv with h1 | h1
  · subst h1
    exact ⟨k0, v0, a, hmem, ha, hl6, hwin, hback⟩
  · exact hq kv h1

set_option maxHeartbeats 1000000 in
theorem tryInsert_preserves {plan : Plan} {forbid : Bool} {day : Nat}
    {prev : Layer} {k0 : StateKey} {v0 : StateVal} {cur : Layer} {a : String}
    {cur' : Layer}
    (hmem : (k0, v0) ∈ prev)
    (ha : a ∈ allowedActions day (lockedAt plan day) forbid)
    (h : tryInsert plan day k0 v0 cur a = .ok cur')
    (hnd : NoDupKeys cur) (hq : ∀ kv ∈ cur, Origin plan forbid day prev kv) :
    NoDupKeys cur' ∧ ∀ kv ∈ cur', Origin plan forbid day prev kv := by
  unfold tryInsert at h
  cases hl : lookupNet a with
  | none => simp only [hl] at h; exact Except.noConfusion h
  | some delta =>
    simp only [hl] at h
    split_ifs at h with h1 h2 h3 h4 h5
    · cases h; exact ⟨hnd, hq⟩
    · cases h; exact ⟨hnd, hq⟩
    · cases h; exact ⟨hnd, hq⟩
    · cases h; exact ⟨hnd, hq⟩
    · cases h; exact ⟨hnd, hq⟩
    · -- survived all prunes: the dict match
      have hwin : 7 ≤ day → hasOffOff (k0.last6 ++ [offFlag a]) = true := by
        intro h7
        by_contra hc
        exact h3 ⟨h7, by simpa using hc⟩
      split at h
      · cases h
        exact origin_insert hnd hq hmem ha hwin rfl rfl
      · split_ifs at h
        · cases h
          exact origin_insert hnd hq hmem ha hwin rfl rfl
        · cases h
          exact ⟨hnd, hq⟩

theorem stepDay_entries {plan : Plan} {forbid : Bool} {day : Nat}
    {prev cur : Layer} (h : stepDay plan forbid day prev = .ok cur) :
    NoDupKeys cur ∧ ∀ kv ∈ cur, Origin plan forbid day prev kv := by
  unfold stepDay at h
  refine foldlM_ok_induct _
    (fun L => NoDupKeys L ∧ ∀ kv ∈ L, Origin plan forbid day prev kv) prev []
    ⟨by constructor, by intro kv hkv; cases hkv⟩ ?_ cur h
  intro b kv b' hkv hP hstep
  refine foldlM_ok_induct _
    (fun L => NoDupKeys L ∧ ∀ kv ∈ L, Origin plan forbid day prev kv) _ b hP
    ?_ b' hstep
  intro c act c' hact hPc htry
  exact tryInsert_preserves hkv hact htry hPc.1 hPc.2

theorem layersUpTo_ok {plan : Plan} {forbid : Bool} :
    ∀ {n : Nat} {L : List Layer}, layersUpTo plan forbid n = .ok L →
      L.length = n + 1 ∧ L.get? 0 = some initLayer ∧
      ∀ t < n, ∃ prev cur, L.get? t = some prev ∧ L.get? (t + 1) = some cur ∧
        stepDay plan forbid (t + 1) prev = .ok cur := by
  intro n
  induction n with
  | zero =>
    intro L h
    unfold layersUpTo at h
    cases h
    exact ⟨rfl, rfl, fun t ht => by omega⟩
  | succ m ih =>
    intro L h
    unfold layersUpTo at h
    obtain ⟨ls, hls, hrest⟩ := except_bind_ok _ _ _ h
    obtain ⟨cur, hcur, hpure⟩ := except_bind_ok _ _ _ hrest
    have hL : L = ls ++ [cur] := by
      simp only [pure, Except.pure] at hpure
      cases hpure
      rfl
    obtain ⟨hlen, hinit, hsteps⟩ := ih hls
    have hmlt : m < ls.length := by omega
    obtain ⟨prevLast, hprevLast⟩ : ∃ x, ls.get? m = some x :=
      ⟨ls.get ⟨m, hmlt⟩, List.get?_eq_get hmlt⟩
    have hlast : ls.getLast?.getD [] = prevLast := by
      have h1 : ls.getLast? = ls.get? (ls.length - 1) := List.getLast?_eq_get? ls
      have h2 : ls.length - 1 = m := by omega
      rw [h1, h2, hprevLast]
      rfl
    rw [hlast] at hcur
    subst hL
    refine ⟨by simp [hlen], ?_, ?_⟩
    · rw [List.get?_append (by omega)]
      exact hinit
    · intro t ht
      by_cases htm : t < m
      · obtain ⟨prev, cur2, hp, hc, hs⟩ := hsteps t htm
        refine ⟨prev, cur2, ?_, ?_, hs⟩
        · rw [List.get?_append (by omega)]
          exact hp
        · rw [List.get?_append (by omega)]
          exact hc
      · have htm2 : t = m := by omega
        subst htm2
        refine ⟨prevLast, cur, ?_, ?_, hcur⟩
        · rw [List.get?_append (by omega)]
          exact hprevLast
        · have h3 : t + 1 = ls.length := by omega
          rw [h3, List.get?_concat_length]


theorem layers_inv {plan : Plan} {forbid : Bool} {L : List Layer}
    (hL : layersUpTo plan forbid 30 = .ok L) :
    ∀ t, t ≤ 30 → ∀ Lt, L.get? t = some Lt →
      NoDupKeys Lt ∧ ∀ kv ∈ Lt, InvVal plan L t kv.1 kv.2 := by
  obtain ⟨hlen, hinit, hsteps⟩ := layersUpTo_ok hL
  intro t
  induction t with
  | zero =>
    intro _ Lt hLt
    rw [hinit] at hLt
    have hLt0 : Lt = initLayer := (Option.some.inj hLt).symm
    subst hLt0
    constructor
    · simp [NoDupKeys, initLayer]
    · intro kv hkv
      have hkv0 : kv = (⟨[], 0, 0, 0⟩, ⟨0, none⟩) := by
        simpa [initLayer] using hkv
      subst hkv0
      refine ⟨[], rfl, rfl, rfl, ?_, ?_⟩
      · intro i h7 h0; omega
      · intro i s h1 h0; omega
  | succ t ih =>
    intro ht Lt hLt
    obtain ⟨prev, cur, hp, hc, hs⟩ := hsteps t (by omega)
    have hcur : Lt = cur := by
      rw [hLt] at hc
      exact Option.some.inj hc
    subst hcur
    obtain ⟨hndprev, hinvprev⟩ := ih (by omega) prev hp
    obtain ⟨hndcur, horig⟩ := stepDay_entries hs
    refine ⟨hndcur, fun kv hkv => ?_⟩
    obtain ⟨k0, v0, a, hmem, ha, hl6, hwin, hback⟩ := horig kv hkv
    obtain ⟨acts0, hrec0, hlen0, hl60, hwins0, hlocks0⟩ := hinvprev (k0, v0) hmem
    refine ⟨acts0 ++ [a], ?_, by simp [hlen0], ?_, ?_, ?_⟩
    · -- reconstruction succeeds and extends the predecessor's
      have hrec0' : reconFrom L t v0 = some acts0 := hrec0
      unfold reconFrom
      rw [hback, hp]
      simp only [Option.getD_some]
      rw [dictLookup_eq_of_mem hndprev hmem]
      simp only [hrec0', Option.map_some']
    · -- the key's 6-day off history is the suffix of the action off flags
      rw [hl6, hl60, List.map_append, List.map_singleton]
      exact lastN_absorb (acts0.map offFlag) (offFlag a)
    · -- every 7-day window check through day t+1 passed
      intro i h7 hi
      by_cases hit : i ≤ t
      · rw [List.take_append_of_le_length (by rw [hlen0]; exact hit)]
        exact hwins0 i h7 hit
      · have hieq : i = t + 1 := by omega
        subst hieq
        have htake : (acts0 ++ [a]).take (t + 1) = acts0 ++ [a] :=
          List.take_all_of_le (by simp [hlen0])
        rw [htake, List.map_append, List.map_singleton, ← lastN_seven, ← hl60]
        exact hwin h7
    · -- locks among days 1..t+1 are honored
      intro i s h1 hi hlock
      by_cases hit : i ≤ t
      · rw [List.get?_append (by omega)]
        exact hlocks0 i s h1 hit hlock
      · have hieq : i = t + 1 := by omega
        subst hieq
        have hallowed : allowedActions (t + 1) (lockedAt plan (t + 1)) forbid = [s] := by
          rw [hlock]
          rfl
        rw [hallowed] at ha
        have haeq : a = s := by simpa using ha
        simp only [Nat.add_sub_cancel]
        rw [← hlen0, List.get?_concat_length, haeq]

theorem selectBest_fold (plan : Plan) :
    ∀ (L : Layer) (b : Option ((Nat × Nat × Int) × StateKey × StateVal))
      (obj : Nat × Nat × Int) (k : StateKey) (v : StateVal),
      L.foldl
        (fun best kv =>
          let finalClosing := baseAt plan 30 + kv.1.net
          if plan.target_end_cents - plan.band_cents ≤ finalClosing
              ∧ finalClosing ≤ plan.target_end_cents + plan.band_cents then
            let obj := (kv.1.workUsed, kv.2.b2b,
              |finalClosing - plan.target_end_cents|)
            match best with
            | none => some (obj, kv.1, kv.2)
            | some b => if objLt obj b.1 then some (obj, kv.1, kv.2) else best
          else best) b = some (obj, k, v) →
      (k, v) ∈ L ∨ b = some (obj, k, v) := by
  intro L
  induction L with
  | nil =>
    intro b obj k v h
    right
    exact h
  | cons kv tl ih =>
    intro b obj k v h
    rw [List.foldl_cons] at h
    rcases ih _ obj k v h with h1 | h1
    · left
      exact List.mem_cons_of_mem _ h1
    · dsimp only at h1
      split_ifs at h1
      · split at h1
        · cases Option.some.inj h1
          left
          exact List.mem_cons_self _ _
        · split_ifs at h1
          · cases Option.some.inj h1
            left
            exact List.mem_cons_self _ _
          · right
            exact h1
      · right
        exact h1

theorem selectBest_mem {plan : Plan} {L : Layer} {obj : Nat × Nat × Int}
    {k : StateKey} {v : StateVal}
    (h : selectBest plan L = some (obj, k, v)) : (k, v) ∈ L := by
  unfold selectBest at h
  rcases selectBest_fold plan L none obj k v h with h1 | h1
  · exact h1
  · cases h1

theorem solve_ok_props {plan : Plan} {forbid : Bool} {sched : Schedule}
    (h : solve plan forbid = .ok sched) :
    sched.actions.length = 30 ∧
    build_ledger plan sched.actions = some sched.ledger ∧
    (∀ i s, 1 ≤ i → i ≤ 30 → lockedAt plan i = some s →
      sched.actions.get? (i - 1) = some s) ∧
    (∀ i, 7 ≤ i → i ≤ 30 →
      hasOffOff (lastN ((sched.actions.take i).map offFlag) 7) = true) := by
  unfold solve at h
  obtain ⟨layers, hlay, h2⟩ := except_bind_ok _ _ _ h
  obtain ⟨hlen, _, _⟩ := layersUpTo_ok hlay
  have h30lt : (30 : Nat) < layers.length := by omega
  obtain ⟨L30, hL30⟩ : ∃ x, layers.get? 30 = some x :=
    ⟨layers.get ⟨30, h30lt⟩, List.get?_eq_get h30lt⟩
  have hlast : layers.getLast?.getD [] = L30 := by
    have h1 : layers.getLast? = layers.get? (layers.length - 1) :=
      List.getLast?_eq_get? layers
    have h2' : layers.length - 1 = 30 := by omega
    rw [h1, h2', hL30]
    rfl
  rw [hlast] at h2
  cases hsel : selectBest plan L30 with
  | none =>
    simp only [hsel] at h2
    exact Except.noConfusion h2
  | some best =>
    obtain ⟨obj, k, v⟩ := best
    simp only [hsel] at h2
    obtain ⟨hnd30, hinv30⟩ := layers_inv hlay 30 (by omega) L30 hL30
    obtain ⟨acts, hrec, hlenacts, _, hwins, hlocks⟩ :=
      hinv30 (k, v) (selectBest_mem hsel)
    cases hrec2 : reconFrom layers 30 v with
    | none =>
      rw [hrec2] at hrec
      exact Option.noConfusion hrec
    | some actions =>
      have hacts : actions = acts := by
        rw [hrec2] at hrec
        exact Option.some.inj hrec
      subst hacts
      simp only [hrec2] at h2
      cases hled : build_ledger plan actions with
      | none =>
        simp only [hled] at h2
        exact Except.noConfusion h2
      | some ledger =>
        simp only [hled] at h2
        cases hlastrow : ledger.getLast? with
        | none =>
          simp only [hlastrow] at h2
          exact Except.noConfusion h2
        | some lastRow =>
          simp only [hlastrow] at h2
          have hsched : sched =
              ⟨actions, obj, lastRow.closing_cents, ledger⟩ := by
            cases h2
            rfl
          subst hsched
          exact ⟨hlenacts, hled, hlocks, hwins⟩

/-! ## Error-kind lemmas: the only error the DP layers can raise is the
KeyError from an unknown action symbol; the infeasibility RuntimeError is
raised only at final selection, with a fixed message. -/

theorem tryInsert_error_kind {plan : Plan} {day : Nat} {k0 : StateKey}
    {v0 : StateVal} {cur : Layer} {a : String} {e : Err}
    (h : tryInsert plan day k0 v0 cur a = .error e) : e = .keyError := by
  unfold tryInsert at h
  cases hl : lookupNet a with
  | none =>
    simp only [hl] at h
    exact (Except.error.inj h).symm
  | some delta =>
    simp only [hl] at h
    split_ifs at h <;> try exact Except.noConfusion h
    split at h
    · exact Except.noConfusion h
    · split_ifs at h <;> exact Except.noConfusion h

theorem stepDay_error_kind {plan : Plan} {forbid : Bool} {day : Nat}
    {prev : Layer} {e : Err} (h : stepDay plan forbid day prev = .error e) :
    e = .keyError := by
  unfold stepDay at h
  refine foldlM_error_kind _ (fun e' => e' = Err.keyError) prev [] ?_ e h
  intro b kv e' _ hstep
  refine foldlM_error_kind _ (fun e'' => e'' = Err.keyError) _ b ?_ e' hstep
  intro c act e'' _ htry
  exact tryInsert_error_kind htry

theorem layersUpTo_error_kind {plan : Plan} {forbid : Bool} :
    ∀ {n : Nat} {e : Err}, layersUpTo plan forbid n = .error e →
      e = .keyError := by
  intro n
  induction n with
  | zero =>
    intro e h
    unfold layersUpTo at h
    exact Except.noConfusion h
  | succ m ih =>
    intro e h
    unfold layersUpTo at h
    rcases except_bind_error _ _ _ h with h1 | ⟨ls, _, h1⟩
    · exact ih h1
    · rcases except_bind_error _ _ _ h1 with h2 | ⟨cur, _, h2⟩
      · exact stepDay_error_kind h2
      · simp only [pure, Except.pure] at h2
        exact Except.noConfusion h2

theorem solve_infeasible_msg {plan : Plan} {forbid : Bool} {msg : String}
    (h : solve plan forbid = .error (.infeasible msg)) :
    msg = "No feasible schedule found under constraints and band" := by
  unfold solve at h
  rcases except_bind_error _ _ _ h with h1 | ⟨layers, _, h1⟩
  · exact absurd (layersUpTo_error_kind h1) (by rintro ⟨⟩)
  · cases hsel : selectBest plan (layers.getLast?.getD []) with
    | none =>
      simp only [hsel] at h1
      exact (Err.infeasible.inj (Except.error.inj h1)).symm
    | some best =>
      obtain ⟨obj, k, v⟩ := best
      simp only [hsel] at h1
      cases hrec : reconFrom layers 30 v with
      | none =>
        simp only [hrec] at h1
        exact absurd (Except.error.inj h1) (by rintro ⟨⟩)
      | some actions =>
        simp only [hrec] at h1
        cases hled : build_ledger plan actions with
        | none =>
          simp only [hled] at h1
          exact absurd (Except.error.inj h1) (by rintro ⟨⟩)
        | some ledger =>
          simp only [hled] at h1
          cases hlast : ledger.getLast? with
          | none =>
            simp only [hlast] at h1
            exact absurd (Except.error.inj h1) (by rintro ⟨⟩)
          | some lastRow =>
            simp only [hlast] at h1
            exact Except.noConfusion h1

/-! ## Off-off window extraction for the emitted schedule -/

theorem offFlag_eq_one {a : String} (h : offFlag a = 1) : a = "O" := by
  unfold offFlag at h
  by_cases ha : a = "O"
  · exact ha
  · rw [if_neg ha] at h
    exact absurd h (by omega)

theorem window_extract {acts : List String} (hlen : acts.length = 30)
    (hwin : ∀ i, 7 ≤ i → i ≤ 30 →
      hasOffOff (lastN ((acts.take i).map offFlag) 7) = true) :
    ∀ s, s ≤ 23 → ∃ i, s ≤ i ∧ i ≤ s + 5 ∧
      acts.get? i = some "O" ∧ acts.get? (i + 1) = some "O" := by
  intro s hs
  have h1 := hwin (s + 7) (by omega) (by omega)
  obtain ⟨j, hj1, hj2⟩ := (hasOffOff_iff _).mp h1
  have hmaplen : ((acts.take (s + 7)).map offFlag).length = s + 7 := by
    rw [List.length_map, List.length_take]
    omega
  have hWlen : (lastN ((acts.take (s + 7)).map offFlag) 7).length = 7 := by
    unfold lastN
    rw [List.length_drop, hmaplen]
    omega
  have hjlt : j + 1 < 7 := by
    have := List.get?_eq_some.mp hj2
    obtain ⟨hb, _⟩ := this
    omega
  have hgets : ∀ m, m < 7 →
      (lastN ((acts.take (s + 7)).map offFlag) 7).get? m =
        (acts.map offFlag).get? (s + m) := by
    intro m hm
    unfold lastN
    rw [List.get?_drop, hmaplen]
    have harith : s + 7 - 7 + m = s + m := by omega
    rw [harith, List.get?_map, List.get?_map, List.get?_take (by omega)]
  have hoff : ∀ m, m < 7 →
      (lastN ((acts.take (s + 7)).map offFlag) 7).get? m = some 1 →
      acts.get? (s + m) = some "O" := by
    intro m hm hsome
    rw [hgets m hm, List.get?_map] at hsome
    cases hga : acts.get? (s + m) with
    | none => rw [hga] at hsome; exact Option.noConfusion hsome
    | some am =>
      rw [hga] at hsome
      simp only [Option.map_some'] at hsome
      rw [offFlag_eq_one (Option.some.inj hsome)]
  refine ⟨s + j, by omega, by omega, hoff j (by omega) hj1, ?_⟩
  have := hoff (j + 1) (by omega) hj2
  have harith : s + (j + 1) = s + j + 1 := by omega
  rw [harith] at this
  exact this

/-! ## Resume arithmetic: appending one adjustment shifts the base prefix -/

theorem sumTo_add_single (f : Nat → Int) (d : Nat) (c : Int) (hd : 1 ≤ d) :
    ∀ n, sumTo (fun i => f i + if d = i then c else 0) n =
      sumTo f n + (if d ≤ n then c else 0) := by
  intro n
  induction n with
  | zero =>
    rw [if_neg (by omega)]
    simp [sumTo]
  | succ m ih =>
    rw [sumTo_succ, sumTo_succ, ih]
    by_cases h1 : d = m + 1
    · rw [if_pos h1, if_neg (by omega), if_pos (by omega)]
      ring
    · rw [if_neg h1]
      by_cases h2 : d ≤ m
      · rw [if_pos h2, if_pos (by omega)]
        ring
      · rw [if_neg h2, if_neg (by omega)]
        ring

theorem depositByDay_append_adj (p p' : Plan) {d : Nat} {delta : Int}
    {note : String}
    (hdep : p'.deposits = p.deposits)
    (hadj : p'.manual_adjustments =
      p.manual_adjustments ++ [⟨(d : Int), delta, note⟩])
    (hd1 : 1 ≤ d) (hd30 : d ≤ 30) (t : Nat) :
    depositByDay p' t = depositByDay p t + (if d = t then delta else 0) := by
  unfold depositByDay
  rw [hdep, hadj, List.filter_append]
  by_cases ht : d = t
  · subst ht
    rw [List.map_append, List.sum_append]
    have hi1 : (1 : Int) ≤ (d : Int) := by exact_mod_cast hd1
    have hi2 : ((d : Int)) ≤ 30 := by exact_mod_cast hd30
    have hflt : List.filter
        (fun a => decide (a.day = (d : Int) ∧ 1 ≤ a.day ∧ a.day ≤ 30))
        [(⟨(d : Int), delta, note⟩ : Adjustment)] =
        [⟨(d : Int), delta, note⟩] := by
      simp [List.filter, hi1, hi2]
    rw [hflt, if_pos rfl]
    simp
    ring
  · have hne : ((d : Int)) ≠ ((t : Int)) := by exact_mod_cast ht
    have hflt : List.filter
        (fun a => decide (a.day = (t : Int) ∧ 1 ≤ a.day ∧ a.day ≤ 30))
        [(⟨(d : Int), delta, note⟩ : Adjustment)] = [] := by
      simp [List.filter, hne]
    rw [hflt, if_neg ht]
    simp

theorem baseAt_append_adj (p p' : Plan) {d : Nat} {delta : Int} {note : String}
    (hstart : p'.start_balance_cents = p.start_balance_cents)
    (hbills : p'.bills = p.bills)
    (hdep : p'.deposits = p.deposits)
    (hadj : p'.manual_adjustments =
      p.manual_adjustments ++ [⟨(d : Int), delta, note⟩])
    (hd1 : 1 ≤ d) (hd30 : d ≤ 30) (t : Nat) :
    baseAt p' t = baseAt p t + (if d ≤ t ∧ 1 ≤ t then delta else 0) := by
  unfold baseAt
  by_cases ht : t = 0
  · subst ht
    rw [if_pos rfl, if_pos rfl, if_neg (by omega)]
    ring
  · rw [if_neg ht, if_neg ht, hstart]
    have hbill : billByDay p' = billByDay p := by
      funext u
      unfold billByDay
      rw [hbills]
    rw [hbill]
    have hdeps : sumTo (depositByDay p') t =
        sumTo (fun i => depositByDay p i + if d = i then delta else 0) t :=
      sumTo_congr (fun i _ _ => depositByDay_append_adj p p' hdep hadj hd1 hd30 i)
    rw [hdeps, sumTo_add_single _ _ _ hd1 t]
    by_cases h2 : d ≤ t
    · rw [if_pos h2, if_pos ⟨h2, by omega⟩]
      ring
    · rw [if_neg h2, if_neg (by intro hc; exact h2 hc.1)]
      ring

theorem baseAt_resumePlan (plan : Plan) (acts : List String) (day : Nat)
    (delta : Int) (hd1 : 1 ≤ day) (hd30 : day ≤ 30) (t : Nat) :
    baseAt (resumePlan plan acts day delta) t =
      baseAt plan t + (if day ≤ t ∧ 1 ≤ t then delta else 0) :=
  baseAt_append_adj plan (resumePlan plan acts day delta) rfl rfl rfl rfl hd1 hd30 t

theorem lockedAt_resumePlan (plan : Plan) (acts : List String) (day : Nat)
    (delta : Int) (i ai : _) (hi : i < day) (hai : acts.get? i = some ai) :
    lockedAt (resumePlan plan acts day delta) (i + 1) = some ai := by
  unfold lockedAt resumePlan
  simp only [Nat.add_sub_cancel]
  rw [List.get?_append (by
    rw [List.length_map, List.length_take]
    have hlen : i < acts.length := by
      by_contra hc
      rw [List.get?_eq_none.mpr (by omega)] at hai
      exact Option.noConfusion hai
    omega)]
  rw [List.get?_map, List.get?_take hi, hai]
  rfl

/-! ## CP-SAT model construction always fails -/

theorem cpNetVec_fails : cpNetVec ACTIONS_CP = .error (.keyError "S") := by
  rfl

theorem cpBuildModel_fails (plan : Plan) : ∃ e, cpBuildModel plan = .error e := by
  unfold cpBuildModel
  cases hl : cpLockChecks plan with
  | error e => exact ⟨e, rfl⟩
  | ok u => exact ⟨.keyError "S", rfl⟩

theorem solve_lex_fails (search : Plan → Except CPError CPSATSolution)
    (plan : Plan) : ∃ e, solve_lex search plan = .error e := by
  unfold solve_lex
  cases hb : cpBuildModel plan with
  | error e => exact ⟨e, rfl⟩
  | ok v =>
    exfalso
    obtain ⟨e, he⟩ := cpBuildModel_fails plan
    rw [hb] at he
    exact Except.noConfusion he

/-! ## Half-up rounding characterization -/

theorem halfUpInt_nearest (x : ℚ) : |((halfUpInt x : Int) : ℚ) - x| ≤ 1/2 := by
  unfold halfUpInt
  by_cases h : 0 ≤ x
  · rw [if_pos h]
    have h1 : (⌊x + 1/2⌋ : ℚ) ≤ x + 1/2 := Int.floor_le _
    have h2 : x + 1/2 - 1 < (⌊x + 1/2⌋ : ℚ) := Int.sub_one_lt_floor _
    rw [abs_le]
    constructor <;> linarith
  · rw [if_neg h]
    have h1 : (⌊-x + 1/2⌋ : ℚ) ≤ -x + 1/2 := Int.floor_le _
    have h2 : -x + 1/2 - 1 < (⌊-x + 1/2⌋ : ℚ) := Int.sub_one_lt_floor _
    rw [abs_le]
    push_cast
    constructor <;> linarith

theorem to_cents_ok_eq {q : ℚ} {n : Int} (h : to_cents q = .ok n) :
    n = halfUpInt (100 * q) ∧ |n| ≤ MAX_AMOUNT_CENTS := by
  unfold to_cents quantizeHundredth at h
  have htr : pyIntTrunc (((halfUpInt (100 * q) : Int) : ℚ) / 100 * 100) =
      halfUpInt (100 * q) := by
    rw [div_mul_cancel₀ _ (by norm_num : (100 : ℚ) ≠ 0)]
    unfold pyIntTrunc
    by_cases hz : (0 : ℚ) ≤ ((halfUpInt (100 * q) : Int) : ℚ)
    · rw [if_pos hz, Int.floor_intCast]
    · rw [if_neg hz, ← Int.cast_neg, Int.floor_intCast]
      ring
  simp only [htr] at h
  split_ifs at h with hband
  have hn : n = halfUpInt (100 * q) := (Except.ok.inj h).symm
  exact ⟨hn, by rw [hn]; omega⟩

theorem to_cents_error_iff (q : ℚ) :
    (∃ e, to_cents q = .error e) ↔ MAX_AMOUNT_CENTS < |halfUpInt (100 * q)| := by
  unfold to_cents quantizeHundredth
  have htr : pyIntTrunc (((halfUpInt (100 * q) : Int) : ℚ) / 100 * 100) =
      halfUpInt (100 * q) := by
    rw [div_mul_cancel₀ _ (by norm_num : (100 : ℚ) ≠ 0)]
    unfold pyIntTrunc
    by_cases hz : (0 : ℚ) ≤ ((halfUpInt (100 * q) : Int) : ℚ)
    · rw [if_pos hz, Int.floor_intCast]
    · rw [if_neg hz, ← Int.cast_neg, Int.floor_intCast]
      ring
  simp only [htr]
  constructor
  · rintro ⟨e, he⟩
    split_ifs at he with hband
    exact hband
  · intro hband
    exact ⟨"Amount exceeds maximum allowed value", by rw [if_pos hband]⟩

/-! ## Out-of-range calendar entries are ignored (C10) -/


theorem filter_range_absorb {α : Type} (day : α → Int) (l : List α) (t : Nat) :
    (l.filter (fun x => decide (1 ≤ day x ∧ day x ≤ 30))).filter
        (fun x => decide (day x = (t : Int) ∧ 1 ≤ day x ∧ day x ≤ 30)) =
      l.filter (fun x => decide (day x = (t : Int) ∧ 1 ≤ day x ∧ day x ≤ 30)) := by
  rw [List.filter_filter]
  apply List.filter_congr
  intro x _
  by_cases h : 1 ≤ day x ∧ day x ≤ 30
  · simp [h]
  · have h2 : decide (day x = (t : Int) ∧ 1 ≤ day x ∧ day x ≤ 30) = false := by
      simp only [decide_eq_false_iff_not]
      rintro ⟨_, hr⟩
      exact h hr
    simp [h, h2]

theorem depositByDay_filterPlan (p : Plan) :
    depositByDay (filterPlan p) = depositByDay p := by
  funext t
  unfold depositByDay filterPlan
  rw [filter_range_absorb (fun d : Deposit => d.day) p.deposits t,
    filter_range_absorb (fun a : Adjustment => a.day) p.manual_adjustments t]

theorem billByDay_filterPlan (p : Plan) :
    billByDay (filterPlan p) = billByDay p := by
  funext t
  unfold billByDay filterPlan
  rw [filter_range_absorb (fun b : Bill => b.day) p.bills t]

theorem baseAt_filterPlan (p : Plan) : baseAt (filterPlan p) = baseAt p := by
  funext t
  unfold baseAt
  rw [depositByDay_filterPlan, billByDay_filterPlan]
  rfl

theorem preRentBase30_filterPlan (p : Plan) :
    preRentBase30 (filterPlan p) = preRentBase30 p := by
  unfold preRentBase30
  rw [depositByDay_filterPlan, billByDay_filterPlan]
  rfl

theorem minNet_filterPlan (p : Plan) : minNet (filterPlan p) = minNet p := by
  unfold minNet
  rw [baseAt_filterPlan]
  rfl

theorem maxNet_filterPlan (p : Plan) : maxNet (filterPlan p) = maxNet p := by
  unfold maxNet
  rw [baseAt_filterPlan]
  rfl

theorem lockedAt_filterPlan (p : Plan) : lockedAt (filterPlan p) = lockedAt p := by
  funext day
  rfl

theorem tryInsert_filterPlan (p : Plan) : tryInsert (filterPlan p) = tryInsert p := by
  funext day k0 v0 cur a
  unfold tryInsert
  rw [minNet_filterPlan, maxNet_filterPlan, baseAt_filterPlan,
    preRentBase30_filterPlan,
    show (filterPlan p).rent_guard_cents = p.rent_guard_cents from rfl]

theorem stepDay_filterPlan (p : Plan) : stepDay (filterPlan p) = stepDay p := by
  funext forbid day prev
  unfold stepDay
  rw [tryInsert_filterPlan, lockedAt_filterPlan]

theorem layersUpTo_filterPlan (p : Plan) :
    layersUpTo (filterPlan p) = layersUpTo p := by
  funext forbid n
  induction n with
  | zero => rfl
  | succ m ih =>
    unfold layersUpTo
    rw [ih, stepDay_filterPlan]

theorem selectBest_filterPlan (p : Plan) :
    selectBest (filterPlan p) = selectBest p := by
  funext L
  unfold selectBest
  rw [baseAt_filterPlan,
    show (filterPlan p).target_end_cents = p.target_end_cents from rfl,
    show (filterPlan p).band_cents = p.band_cents from rfl]

theorem ledgerRows_filterPlan (p : Plan) (acts : List String) :
    ∀ (r t : Nat) (net : Int),
      ledgerRows (filterPlan p) acts t r net = ledgerRows p acts t r net := by
  intro r
  induction r with
  | zero => intro t net; rfl
  | succ m ih =>
    intro t net
    unfold ledgerRows
    cases ha : acts.get? (t - 1) with
    | none => simp only [ha]
    | some a =>
      cases hd : lookupNet a with
      | none => simp only [ha, hd]
      | some d =>
        simp only [ha, hd]
        rw [depositByDay_filterPlan, billByDay_filterPlan, baseAt_filterPlan,
          show (filterPlan p).start_balance_cents = p.start_balance_cents from rfl,
          ih]

theorem build_ledger_filterPlan (p : Plan) :
    build_ledger (filterPlan p) = build_ledger p := by
  funext acts
  unfold build_ledger
  exact ledgerRows_filterPlan p acts 30 1 0

theorem solve_filterPlan (p : Plan) : solve (filterPlan p) = solve p := by
  funext forbid
  unfold solve
  rw [layersUpTo_filterPlan, selectBest_filterPlan, build_ledger_filterPlan]

theorem validate_filterPlan (p : Plan) : validate (filterPlan p) = validate p := by
  funext sched
  unfold validate
  rw [preRentBase30_filterPlan,
    show (filterPlan p).target_end_cents = p.target_end_cents from rfl,
    show (filterPlan p).band_cents = p.band_cents from rfl,
    show (filterPlan p).rent_guard_cents = p.rent_guard_cents from rfl]


/-! ## The claims -/

/-- C1: the spec claims the CP-SAT secondary solver reaches the same
objective tuple as the DP primary solver and that verify_lex_optimal
reports ok exactly on equality.  In the code the CP-SAT model builder
evaluates SHIFT_NET_CENTS["S"] — a key absent from the two-symbol payout
table — so solve_lex raises KeyError on every plan, whatever the external
CP-SAT search would do, and verify_lex_optimal always reports ok = false
(moreover the DP objective is a 3-tuple and the CP objective a 5-tuple,
which Python never compares equal).  The cross-check can never succeed:
the code contradicts the spec and its own module docstring. -/
theorem claim_C1 (search : Plan → Except CPError CPSATSolution) (plan : Plan)
    (sched : Schedule) :
    (∃ e, solve_lex search plan = .error e) ∧
      (verify_lex_optimal search plan sched).ok = false := by
  obtain ⟨e, he⟩ := solve_lex_fails search plan
  refine ⟨⟨e, he⟩, ?_⟩
  unfold verify_lex_optimal
  simp only [he]

/-- C2: every schedule the DP solver returns has 30 actions and satisfies
the off-off rest rule: for every window start s in 0..23 there is an index
i in [s, s+5] with actions[i] and actions[i+1] both off-days. -/
theorem claim_C2 (plan : Plan) (forbid : Bool) (sched : Schedule)
    (h : solve plan forbid = .ok sched) :
    sched.actions.length = 30 ∧
      ∀ s, s ≤ 23 → ∃ i, s ≤ i ∧ i ≤ s + 5 ∧
        sched.actions.get? i = some "O" ∧
        sched.actions.get? (i + 1) = some "O" := by
  obtain ⟨hlen, _, _, hwins⟩ := solve_ok_props h
  exact ⟨hlen, window_extract hlen hwins⟩

/-- C2 witness: the solver succeeds on the concrete plan wplan and the
off-off property holds there, e.g. in the first window. -/
theorem claim_C2_witness :
    wsched.actions.length = 30 ∧
      (∃ i, 0 ≤ i ∧ i ≤ 0 + 5 ∧
        wsched.actions.get? i = some "O" ∧
        wsched.actions.get? (i + 1) = some "O") := by
  have h := claim_C2 wplan false wsched (by rfl)
  exact ⟨h.1, h.2 0 (by omega)⟩

/-- C3: whenever the baseline solve and the re-solve succeed, the resume
operation (lock baseline actions 1..d, append an adjustment of the desired
closing minus the baseline closing of day d, re-solve) returns a schedule
whose day-d ledger closing equals the desired amount exactly and whose
actions on days 1..d coincide with the baseline's. -/
theorem claim_C3 (plan : Plan) (d : Nat) (x : Int) (b sched : Schedule)
    (hd1 : 1 ≤ d) (hd30 : d ≤ 30)
    (hbase : solve plan false = .ok b)
    (hres : resume plan d x = .ok sched) :
    (sched.ledger.get? (d - 1)).map (fun r => r.closing_cents) = some x ∧
      sched.actions.take d = b.actions.take d := by
  unfold resume at hres
  rw [if_neg (not_not_intro ⟨hd1, hd30⟩)] at hres
  obtain ⟨baseline, hbl, hres2⟩ := except_bind_ok _ _ _ hres
  rw [hbase] at hbl
  have hbb : baseline = b := (Except.ok.inj hbl).symm
  rw [hbb] at hres2
  obtain ⟨hblen, hbled, _, _⟩ := solve_ok_props hbase
  simp only [hbled] at hres2
  have hbled' : ledgerRows plan b.actions 1 30 0 = some b.ledger := hbled
  obtain ⟨row, hrow, hclose⟩ :=
    ledgerRows_closing (by omega) hbled' (d - 1) (by omega)
  have harith1 : 1 + (d - 1) = d := by omega
  have harith2 : d - 1 + 1 = d := by omega
  rw [harith1, harith2, show (1 : Nat) - 1 = 0 from rfl, List.drop_zero,
    zero_add] at hclose
  simp only [hrow] at hres2
  obtain ⟨hslen, hsled, hslocks, _⟩ := solve_ok_props hres2
  have htake : sched.actions.take d = b.actions.take d := by
    apply List.ext_get?
    intro i
    by_cases hi : i < d
    · rw [List.get?_take hi, List.get?_take hi]
      have hilt : i < b.actions.length := by omega
      obtain ⟨ai, hai⟩ : ∃ ai, b.actions.get? i = some ai :=
        ⟨b.actions.get ⟨i, hilt⟩, List.get?_eq_get hilt⟩
      have hlock := lockedAt_resumePlan plan b.actions d
        (x - row.closing_cents) i ai hi hai
      have hget := hslocks (i + 1) ai (by omega) (by omega) hlock
      simp only [Nat.add_sub_cancel] at hget
      rw [hget, hai]
    · rw [List.get?_eq_none.mpr (by rw [List.length_take]; omega),
        List.get?_eq_none.mpr (by rw [List.length_take]; omega)]
  refine ⟨?_, htake⟩
  have hsled' : ledgerRows (resumePlan plan b.actions d (x - row.closing_cents))
      sched.actions 1 30 0 = some sched.ledger := hsled
  obtain ⟨row', hrow', hclose'⟩ :=
    ledgerRows_closing (by omega) hsled' (d - 1) (by omega)
  rw [harith1, harith2, show (1 : Nat) - 1 = 0 from rfl, List.drop_zero,
    zero_add] at hclose'
  rw [hrow']
  simp only [Option.map_some']
  have hnets : netSumTo sched.actions d = netSumTo b.actions d :=
    netSumTo_congr d htake
  have hbb := baseAt_resumePlan plan b.actions d (x - row.closing_cents)
    hd1 hd30 d
  rw [if_pos ⟨le_refl d, by omega⟩] at hbb
  rw [hclose', hnets, hbb, hclose]
  congr 1
  ring

/-- C3 witness: on the concrete plan wplan, with day 28 and desired closing
80000 cents, both solves succeed and the resume contract holds. -/
theorem claim_C3_witness :
    (wres.ledger.get? (28 - 1)).map (fun r => r.closing_cents) = some 80000 ∧
      wres.actions.take 28 = wsched.actions.take 28 :=
  claim_C3 wplan 28 80000 wsched wres (by omega) (by omega) (by rfl) (by rfl)

/-- C4 counterexample: the claim says build_ledger never fails even on
action vectors with symbols outside the action alphabet; in the code
build_ledger evaluates SHIFT_NET_CENTS[a], so the unknown symbol "X"
raises KeyError on day 1 and no ledger is produced. -/
theorem claim_C4_counterexample :
    build_ledger czplan (List.replicate 30 "X") = none ∧
      (List.replicate 30 "X").length = 30 := by
  constructor
  · rfl
  · rfl

/-- C4 as amended: for every plan and every length-30 action vector over
the action alphabet — including infeasible ones — build_ledger succeeds
and returns exactly 30 rows; vectors containing a symbol outside the
alphabet make it fail with a key lookup error instead. -/
theorem claim_C4_amended (plan : Plan) (acts : List String)
    (hlen : acts.length = 30) (halpha : ∀ a ∈ acts, a = "O" ∨ a = "Spark") :
    ∃ rows, build_ledger plan acts = some rows ∧ rows.length = 30 := by
  have hall : ∀ a ∈ acts, (lookupNet a).isSome := by
    intro a ha
    rcases halpha a ha with h | h <;> rw [h] <;> rfl
  have hsome : (ledgerRows plan acts 1 30 0).isSome :=
    ledgerRows_total hall 30 1 0 (by omega)
  obtain ⟨rows, hrows⟩ := Option.isSome_iff_exists.mp hsome
  exact ⟨rows, hrows, ledgerRows_length hrows⟩

/-- C4 witness: a concrete all-off month on the all-zero plan. -/
theorem claim_C4_witness :
    ∃ rows, build_ledger czplan oActs = some rows ∧ rows.length = 30 :=
  claim_C4_amended czplan oActs (by decide) (by decide)

/-- C5 counterexample: the claim says the validator's checks include the
day-1 working-action rule and that every lock is honored.  On this
concrete input day 1 is unlocked yet off, and the day-2 lock on Spark is
violated, but validate returns ok = true with all five checks passing —
neither rule is checked. -/
theorem claim_C5_counterexample :
    (validate plan0 sched0).map (fun r => r.ok) = some true ∧
      (validate plan0 sched0).map
        (fun r => r.checks.all (fun c => c.2.1)) = some true ∧
      lockedAt plan0 1 = none ∧
      sched0.actions.get? 0 = some "O" ∧
      lockedAt plan0 2 = some "Spark" ∧
      sched0.actions.get? 1 = some "O" := by
  refine ⟨by rfl, by rfl, by rfl, by rfl, by rfl, by rfl⟩

/-- C5 as amended: every report validate returns carries exactly the five
source-order checks — action alphabet, non-negative closings, final band,
day-30 pre-rent guard, off-off windows — and ok is their conjunction; no
day-1 working-action check and no lock check is present. -/
theorem claim_C5_amended (plan : Plan) (sched : Schedule)
    (r : ValidationReport) (h : validate plan sched = some r) :
    r.checks.map (fun c => c.1) =
      ["Actions valid", "Non-negative balances", "Final within band",
        "Day-30 pre-rent guard", "7-day Off,Off present"] ∧
      r.ok = r.checks.all (fun c => c.2.1) := by
  unfold validate at h
  cases hnet : netTotalM sched.actions with
  | none => simp only [hnet] at h; exact Option.noConfusion h
  | some netTotal =>
    simp only [hnet] at h
    cases hoff : windowScan (sched.actions.map offFlag) (List.range 24) with
    | none => simp only [hoff] at h; exact Option.noConfusion h
    | some offOk =>
      simp only [hoff] at h
      have hr := Option.some.inj h
      rw [← hr]
      exact ⟨rfl, rfl⟩

/-- C5 witness: the amended statement at the concrete report produced for
plan0 and sched0. -/
theorem claim_C5_witness :
    ((validate plan0 sched0).getD ⟨false, []⟩).checks.map (fun c => c.1) =
      ["Actions valid", "Non-negative balances", "Final within band",
        "Day-30 pre-rent guard", "7-day Off,Off present"] ∧
      ((validate plan0 sched0).getD ⟨false, []⟩).ok =
        ((validate plan0 sched0).getD ⟨false, []⟩).checks.all
          (fun c => c.2.1) :=
  claim_C5_amended plan0 sched0 _ (by rfl)

/-- C6 counterexample: the claim says the DP solver raises an Infeasible
error whose structured reason identifies the last active constraint.  The
code raises a plain RuntimeError with one fixed message: planA is
infeasible because of the day-1 non-negativity check while planB is
infeasible because of the band capacity bound, yet both raise the
identical error value, which therefore identifies nothing. -/
theorem claim_C6_counterexample :
    solve planA false =
      .error (.infeasible "No feasible schedule found under constraints and band") ∧
    solve planB false =
      .error (.infeasible "No feasible schedule found under constraints and band") := by
  constructor
  · decide
  · decide

/-- C6 as amended: on every plan with no feasible schedule the DP solver
raises a RuntimeError carrying the one fixed message "No feasible schedule
found under constraints and band", which does not identify the last active
constraint. -/
theorem claim_C6_amended (plan : Plan) (forbid : Bool) (msg : String)
    (h : solve plan forbid = .error (.infeasible msg)) :
    msg = "No feasible schedule found under constraints and band" :=
  solve_infeasible_msg h

/-- C6 witness: the amended statement discharged on the concrete
infeasible plan planA. -/
theorem claim_C6_witness :
    ∃ msg, solve planA false = .error (.infeasible msg) ∧
      msg = "No feasible schedule found under constraints and band" :=
  ⟨"No feasible schedule found under constraints and band", by decide,
    claim_C6_amended planA false _ (by decide)⟩

/-- C7: every DayLedger row that build_ledger produces satisfies
closing = opening + deposit + net - bills. -/
theorem claim_C7 (plan : Plan) (acts : List String) (rows : List DayLedger)
    (h : build_ledger plan acts = some rows) :
    ∀ row ∈ rows,
      row.closing_cents =
        row.opening_cents + row.deposit_cents + row.net_cents
          - row.bills_cents :=
  ledgerRows_rowInvariant (by omega) h

/-- C7 witness: the row identity on the concrete ledger of the all-zero
plan with an all-off month. -/
theorem claim_C7_witness :
    ∃ rows, build_ledger czplan oActs = some rows ∧
      ∀ row ∈ rows,
        row.closing_cents =
          row.opening_cents + row.deposit_cents + row.net_cents
            - row.bills_cents :=
  ⟨(build_ledger czplan oActs).getD [], by rfl,
    claim_C7 czplan oActs _ (by rfl)⟩

/-- C8: for every parseable monetary input (modelled as the exact rational
the Decimal parser produces), to_cents returns exactly the half-up
rounding of the amount at the hundredth — an integer number of cents
within half a cent of the true value — and rejects with an error exactly
when the absolute rounded value exceeds 10^9 cents. -/
theorem claim_C8 (q : ℚ) :
    (∀ n, to_cents q = .ok n →
      n = halfUpInt (100 * q) ∧ |((n : Int) : ℚ) - 100 * q| ≤ 1/2 ∧
        |n| ≤ MAX_AMOUNT_CENTS) ∧
      ((∃ e, to_cents q = .error e) ↔
        MAX_AMOUNT_CENTS < |halfUpInt (100 * q)|) := by
  refine ⟨?_, to_cents_error_iff q⟩
  intro n h
  obtain ⟨hn, hb⟩ := to_cents_ok_eq h
  refine ⟨hn, ?_, hb⟩
  rw [hn]
  exact halfUpInt_nearest (100 * q)

/-- C8 witness: 12.345 dollars rounds half-up to 1235 cents and is
accepted. -/
theorem claim_C8_witness :
    to_cents (2469/200 : ℚ) = .ok 1235 ∧
      ((1235 : Int) = halfUpInt (100 * (2469/200 : ℚ)) ∧
        |(((1235 : Int)) : ℚ) - 100 * (2469/200 : ℚ)| ≤ 1/2 ∧
        |(1235 : Int)| ≤ MAX_AMOUNT_CENTS) := by
  have hok : to_cents (2469/200 : ℚ) = .ok 1235 := by
    unfold to_cents quantizeHundredth halfUpInt pyIntTrunc MAX_AMOUNT_CENTS
    norm_num
  exact ⟨hok, (claim_C8 (2469/200 : ℚ)).1 1235 hok⟩

/-- C9: on a schedule whose action vector contains the symbol "X" (outside
the action table), validate raises — the key lookup fails while summing
net deltas — instead of returning a report whose "Actions valid" check is
marked failed. -/
theorem claim_C9 :
    validate czplan schedX = none ∧ "X" ∈ schedX.actions ∧
      netTotalM schedX.actions = none := by
  refine ⟨by rfl, by decide, by rfl⟩

/-- C10: deposits, bills and manual adjustments dated outside 1..30 are
silently ignored: removing them changes neither the prefix arrays nor any
ledger, validation or solve result. -/
theorem claim_C10 (p : Plan) :
    depositByDay (filterPlan p) = depositByDay p ∧
      billByDay (filterPlan p) = billByDay p ∧
      baseAt (filterPlan p) = baseAt p ∧
      build_ledger (filterPlan p) = build_ledger p ∧
      validate (filterPlan p) = validate p ∧
      solve (filterPlan p) = solve p :=
  ⟨depositByDay_filterPlan p, billByDay_filterPlan p, baseAt_filterPlan p,
    build_ledger_filterPlan p, validate_filterPlan p, solve_filterPlan p⟩

end Cashflow
